import Mathlib

/-
Verification of the retrieval-augmented memory pipeline of the
local-chatbot-with-memory repository.

Shallow embedding of the three source files:
  ollama_interface.py : get_embedding, get_chat_response
  memory_manager.py   : save_conversation_turn, load_raw_history,
                        retrieve_relevant_history
  chat.py             : format_retrieved_history_for_prompt

Network responses, the history file and the vector index are modelled as
explicit values; each operation returns its result together with a trace of
the externally visible events it performed (log writes, embedding calls,
index calls, error reports), so that ordering and call-count properties can
be stated.
-/

/-- An embedding vector. The numeric contents are opaque to every claim, so
the component type is Int, keeping all predicates decidable. -/
abbrev Embedding := List Int

/-- Possible outcomes of the HTTP POST to the embeddings endpoint in
get_embedding: a transport error or non-2xx status (requests raises a
RequestException, also from raise_for_status), a body that is not valid JSON
(json.JSONDecodeError), or valid JSON whose optional field is the value of
the key named embedding (none models a KeyError on lookup). -/
inductive EmbedHTTP where
  | transport
  | badJSON (text : String)
  | json (embeddingField : Option Embedding)
deriving DecidableEq, Repr

/-- ollama_interface.get_embedding: returns the embedding from the response
on success and None (here Option.none) on a RequestException, a
JSONDecodeError, or a KeyError for the missing embedding key. -/
def get_embedding : EmbedHTTP → Option Embedding
  | .transport => none
  | .badJSON _ => none
  | .json none => none
  | .json (some v) => some v

/-- Possible outcomes of the HTTP POST to the generate endpoint in
get_chat_response, in the same style as EmbedHTTP: the optional field is the
value of the key named response (none models a missing key, read through
dict.get with default empty string). -/
inductive ChatHTTP where
  | transport
  | badJSON (text : String)
  | json (responseField : Option String)
deriving DecidableEq, Repr

/-- Drop leading and trailing whitespace characters from a character list. -/
def stripChars (l : List Char) : List Char :=
  ((l.dropWhile Char.isWhitespace).reverse.dropWhile Char.isWhitespace).reverse

/-- The strip method of Python strings: the string without its leading and
trailing whitespace. -/
def pyStrip (s : String) : String := ⟨stripChars s.data⟩

/-- The fixed string returned by get_chat_response on a transport failure. -/
def transportFallback : String := "Sorry, I encountered an error trying to respond."

/-- The fixed string returned by get_chat_response on a non-JSON body. -/
def malformedFallback : String := "Sorry, I received an unreadable response."

/-- ollama_interface.get_chat_response: on success returns the response
field (defaulted to the empty string when the key is absent) stripped of
surrounding whitespace; on a RequestException returns the transport
fallback; on a JSONDecodeError returns the malformed fallback. -/
def get_chat_response : ChatHTTP → String
  | .transport => transportFallback
  | .badJSON _ => malformedFallback
  | .json f => pyStrip (f.getD "")

/-- A conversation turn: the dict written by save_conversation_turn, with
keys id, user, bot. -/
structure Turn where
  id : String
  user : String
  bot : String
deriving DecidableEq, Repr

/-- One line of the history file, or one document payload stored in the
index: either the JSON serialization of a turn (wellFormed) or a string
that json.loads rejects (malformed). -/
inductive Line where
  | wellFormed (t : Turn)
  | malformed (s : String)
deriving DecidableEq, Repr

/-- Deserialize a stored line or document back into a turn; none models a
json.JSONDecodeError. -/
def lineToTurn : Line → Option Turn
  | .wellFormed t => some t
  | .malformed _ => none

/-- One record of the ChromaDB collection, as written by collection.add in
save_conversation_turn: id, embedding, document payload, and the metadata
fields source and turn_id. -/
structure IndexRecord where
  id : String
  embedding : Embedding
  document : Line
  metaSource : String
  metaTurnId : String
deriving DecidableEq, Repr

/-- State of the history file: absent (os.path.exists is false), failing
with IOError on open or write, or present with a list of lines. -/
inductive HistFile where
  | absent
  | ioError
  | present (lines : List Line)
deriving DecidableEq, Repr

/-- Externally visible events of the memory-manager operations, in the
order they are performed: attempts to write the log, calls to the embedding
client, calls into the index, reads of the history file, and the error
reports printed on each failure path. -/
inductive Event where
  | logAppend (t : Turn)
  | reportLogError
  | embedCall (text : String)
  | reportEmbedFailure (id : String)
  | indexAdd (id : String)
  | reportIndexAddError (id : String)
  | reportNoCollection
  | historyOpenRead
  | reportHistoryReadError
  | indexQuery (k : Nat)
  | reportQueryEmbedFailure
  | reportSkippedLine (s : String)
  | reportSkippedDoc (s : String)
deriving DecidableEq, Repr

/-- Memory-manager module state: the ChromaDB collection (none when the
startup try block failed and the module-level variable stayed None) and the
history file. -/
structure MMState where
  collection : Option (List IndexRecord)
  historyFile : HistFile

/-- Squared Euclidean distance between two embedding vectors. -/
def dist2 (a b : Embedding) : Int :=
  (List.zipWith (fun x y => (x - y) * (x - y)) a b).foldl (· + ·) 0

/-- Insert a record into a list kept sorted by increasing distance to the
query embedding. -/
def insertByDist (q : Embedding) (r : IndexRecord) : List IndexRecord → List IndexRecord
  | [] => [r]
  | x :: xs =>
      if dist2 q r.embedding ≤ dist2 q x.embedding then r :: x :: xs
      else x :: insertByDist q r xs

/-- Sort the records of the collection by increasing distance to the query
embedding (most similar first). -/
def sortByDist (q : Embedding) : List IndexRecord → List IndexRecord
  | [] => []
  | r :: rs => insertByDist q r (sortByDist q rs)

/-- Modelled from the spec: the query operation of the Vector Index
collaborator (the ChromaDB client library, not part of this repository).
Per the contract in the spec it returns the documents of up to k nearest
records by the similarity metric, most similar first. -/
def collection_query (recs : List IndexRecord) (qe : Embedding) (k : Nat) : List Line :=
  ((sortByDist qe recs).take k).map (fun r => r.document)

/-- The text embedded for a turn in save_conversation_turn. -/
def embedText (user_message bot_message : String) : String :=
  "User: " ++ user_message ++ "\n" ++ "Bot: " ++ bot_message

/-- Python truthiness of the value returned by get_embedding: None and the
empty list are falsy, a nonempty list is truthy. -/
def pyTruthy : Option Embedding → Bool
  | some (_ :: _) => true
  | _ => false

/-- Open the history file in append mode and write one serialized turn;
an IOError is reported and leaves the file unchanged. -/
def appendLine (hf : HistFile) (t : Turn) : HistFile × List Event :=
  match hf with
  | .ioError => (.ioError, [.logAppend t, .reportLogError])
  | .absent => (.present [.wellFormed t], [.logAppend t])
  | .present ls => (.present (ls ++ [.wellFormed t]), [.logAppend t])

/-- memory_manager.save_conversation_turn: with no collection, report and
return; otherwise append the turn to the history file (best effort), embed
the combined text, and when the embedding is truthy add the record to the
collection (a duplicate id raises inside collection.add, caught and
reported); on a falsy embedding skip the index write and report. -/
def save_conversation_turn (st : MMState) (svc : String → EmbedHTTP)
    (user_message bot_message turn_id : String) : MMState × List Event :=
  match st with
  | ⟨none, _⟩ => (st, [.reportNoCollection])
  | ⟨some recs, hf⟩ =>
    let turn : Turn := ⟨turn_id, user_message, bot_message⟩
    let ha := appendLine hf turn
    let text := embedText user_message bot_message
    match get_embedding (svc text) with
    | some [] =>
        (⟨some recs, ha.1⟩, ha.2 ++ [.embedCall text, .reportEmbedFailure turn_id])
    | some e =>
        if recs.any (fun r => r.id == turn_id) then
          (⟨some recs, ha.1⟩,
            ha.2 ++ [.embedCall text, .indexAdd turn_id, .reportIndexAddError turn_id])
        else
          (⟨some (recs ++ [⟨turn_id, e, Line.wellFormed turn, "conversation_history", turn_id⟩]), ha.1⟩,
            ha.2 ++ [.embedCall text, .indexAdd turn_id])
    | none =>
        (⟨some recs, ha.1⟩, ha.2 ++ [.embedCall text, .reportEmbedFailure turn_id])

/-- Shared loop body of load_raw_history and of the retrieval
deserialization: parse each line, keeping the parsed turns in order and
reporting each line that fails to parse without aborting. -/
def parseWith (report : String → Event) : List Line → List Turn × List Event
  | [] => ([], [])
  | Line.wellFormed t :: rest =>
      let p := parseWith report rest
      (t :: p.1, p.2)
  | Line.malformed s :: rest =>
      let p := parseWith report rest
      (p.1, report s :: p.2)

/-- memory_manager.load_raw_history: an absent file returns the empty list
without an open attempt; an IOError on open is reported and returns the
empty list; otherwise every line is parsed, malformed lines are skipped and
reported. -/
def load_raw_history (hf : HistFile) : List Turn × List Event :=
  match hf with
  | .absent => ([], [])
  | .ioError => ([], [.historyOpenRead, .reportHistoryReadError])
  | .present ls =>
      let p := parseWith Event.reportSkippedLine ls
      (p.1, .historyOpenRead :: p.2)

/-- memory_manager.retrieve_relevant_history: short-circuits to empty with
no collection or a count of zero; clamps n_results to the record count;
embeds the query (a falsy embedding short-circuits to empty with a report);
queries the index and deserializes each returned document, skipping and
reporting any that fails to parse. -/
def retrieve_relevant_history (st : MMState) (svc : String → EmbedHTTP)
    (query_text : String) (n_results : Int := 3) : List Turn × List Event :=
  match st with
  | ⟨none, _⟩ => ([], [.reportNoCollection])
  | ⟨some recs, _⟩ =>
    let current_collection_count := recs.length
    if current_collection_count = 0 then ([], [])
    else
      let actual_n_results : Int := min n_results (current_collection_count : Int)
      if actual_n_results ≤ 0 then ([], [])
      else
        match get_embedding (svc query_text) with
        | none => ([], [.embedCall query_text, .reportQueryEmbedFailure])
        | some [] => ([], [.embedCall query_text, .reportQueryEmbedFailure])
        | some qe =>
            let k := actual_n_results.toNat
            let p := parseWith Event.reportSkippedDoc (collection_query recs qe k)
            (p.1, [.embedCall query_text, .indexQuery k] ++ p.2)

/-- The string appended for one retrieved document in the loop of
format_retrieved_history_for_prompt. -/
def contextEntry (doc : Turn) : String :=
  "User: " ++ doc.user ++ "\nBot: " ++ doc.bot ++ "\n---\n"

/-- Concatenation of the per-document strings, in order. -/
def contextEntries : List Turn → String
  | [] => ""
  | d :: ds => contextEntry d ++ contextEntries ds

/-- The header line (with its following separator line) emitted before the
retrieved snippets. -/
def contextHeader : String :=
  "Relevant past conversation snippets (most relevant first):\n---\n"

/-- chat.format_retrieved_history_for_prompt: the empty list gives the
empty string; otherwise the header followed, for each document in order, by
the User and Bot lines and a separator line. -/
def format_retrieved_history_for_prompt (retrieved_docs : List Turn) : String :=
  if retrieved_docs.isEmpty then ""
  else retrieved_docs.foldl
    (fun history_str doc =>
      history_str ++ "User: " ++ doc.user ++ "\nBot: " ++ doc.bot ++ "\n---\n")
    contextHeader

/-- One call to save_conversation_turn during a replay: the embedding
service seen by that call together with the three string arguments. -/
structure SaveReq where
  svc : String → EmbedHTTP
  user : String
  bot : String
  id : String

/-- The turn a replayed save writes to the log. -/
def SaveReq.turn (s : SaveReq) : Turn := ⟨s.id, s.user, s.bot⟩

/-- Replay a sequence of saves, threading the memory-manager state; each
save may see a different embedding-service behaviour. -/
def replaySaves : MMState → List SaveReq → MMState
  | st, [] => st
  | st, s :: rest => replaySaves (save_conversation_turn st s.svc s.user s.bot s.id).1 rest

/- Helper lemmas -/

theorem foldl_contextEntries (l : List Turn) : ∀ init : String,
    l.foldl (fun history_str doc =>
      history_str ++ "User: " ++ doc.user ++ "\nBot: " ++ doc.bot ++ "\n---\n") init
      = init ++ contextEntries l := by
  induction l with
  | nil =>
      intro init
      simp [contextEntries]
  | cons d ds ih =>
      intro init
      rw [List.foldl_cons, ih]
      simp only [contextEntries, contextEntry]
      simp [String.append_assoc]

theorem contextEntry_ends (t : Turn) :
    contextEntry t = ("User: " ++ t.user ++ "\nBot: " ++ t.bot ++ "\n") ++ "---\n" := by
  have h : ("\n---\n" : String) = "\n" ++ "---\n" := by decide
  simp only [contextEntry, h]
  simp [String.append_assoc]

theorem contextEntries_ends (t : Turn) (ts : List Turn) :
    ∃ s : String, contextEntries (t :: ts) = s ++ "---\n" := by
  induction ts generalizing t with
  | nil =>
      refine ⟨"User: " ++ t.user ++ "\nBot: " ++ t.bot ++ "\n", ?_⟩
      simp [contextEntries, contextEntry_ends]
  | cons d ds ih =>
      obtain ⟨s, hs⟩ := ih d
      refine ⟨contextEntry t ++ s, ?_⟩
      simp only [contextEntries] at hs ⊢
      rw [hs, String.append_assoc]

/- Claim theorems -/

/-- C4: format_retrieved_history_for_prompt is pure; the empty list maps to
the empty string; a non-empty list maps to the header line followed, for
each turn in the given order, by a User line and a Bot line with a
separator line after every turn including the last (so the whole output
ends in a separator line); a one-turn input yields exactly the header plus
one User/Bot pair and one trailing separator. -/
theorem format_context_spec :
    format_retrieved_history_for_prompt [] = "" ∧
    (∀ (t : Turn) (ts : List Turn),
        format_retrieved_history_for_prompt (t :: ts)
          = contextHeader ++ contextEntries (t :: ts)) ∧
    (∀ t : Turn,
        format_retrieved_history_for_prompt [t]
          = contextHeader ++ ("User: " ++ t.user ++ "\nBot: " ++ t.bot ++ "\n---\n")) ∧
    (∀ (t : Turn) (ts : List Turn), ∃ s : String,
        format_retrieved_history_for_prompt (t :: ts) = s ++ "---\n") := by
  have hcons : ∀ (t : Turn) (ts : List Turn),
      format_retrieved_history_for_prompt (t :: ts)
        = contextHeader ++ contextEntries (t :: ts) := by
    intro t ts
    simp only [format_retrieved_history_for_prompt, List.isEmpty_cons, if_neg]
    exact foldl_contextEntries (t :: ts) contextHeader
  refine ⟨rfl, hcons, ?_, ?_⟩
  · intro t
    rw [hcons t []]
    simp [contextEntries, contextEntry]
  · intro t ts
    obtain ⟨s, hs⟩ := contextEntries_ends t ts
    exact ⟨contextHeader ++ s, by rw [hcons t ts, hs, String.append_assoc]⟩

/-- C5: get_chat_response returns the fixed transport fallback on transport
failure, the distinct fixed malformed fallback on a non-JSON response, and
on success the completion stripped of surrounding whitespace; the two
fallbacks differ from each other and from the empty string, which is what a
genuine stripped-empty completion yields. -/
theorem get_chat_response_fallbacks :
    get_chat_response ChatHTTP.transport = transportFallback ∧
    (∀ s : String, get_chat_response (ChatHTTP.badJSON s) = malformedFallback) ∧
    (∀ s : String, get_chat_response (ChatHTTP.json (some s)) = pyStrip s) ∧
    transportFallback ≠ malformedFallback ∧
    transportFallback ≠ "" ∧
    malformedFallback ≠ "" ∧
    get_chat_response (ChatHTTP.json (some "")) = "" :=
  ⟨rfl, fun _ => rfl, fun _ => rfl, by decide, by decide, by decide, by decide⟩

/-- C6: get_embedding returns a failure value (none) on a transport error,
on malformed JSON and on a response missing the embedding field, and the
vector from the response on success; any returned vector is exactly the one
in the response, never a substituted value. -/
theorem get_embedding_failure_modes :
    get_embedding EmbedHTTP.transport = none ∧
    (∀ s : String, get_embedding (EmbedHTTP.badJSON s) = none) ∧
    get_embedding (EmbedHTTP.json none) = none ∧
    (∀ v : Embedding, get_embedding (EmbedHTTP.json (some v)) = some v) ∧
    (∀ (r : EmbedHTTP) (v : Embedding),
        get_embedding r = some v → r = EmbedHTTP.json (some v)) := by
  refine ⟨rfl, fun _ => rfl, rfl, fun _ => rfl, ?_⟩
  intro r v h
  cases r with
  | transport => simp [get_embedding] at h
  | badJSON s => simp [get_embedding] at h
  | json f =>
      cases f with
      | none => simp [get_embedding] at h
      | some w =>
          simp only [get_embedding, Option.some.injEq] at h
          rw [h]

theorem get_embedding_failure_modes_witness :
    get_embedding (EmbedHTTP.json (some [1, 2])) = some [1, 2] ∧
    EmbedHTTP.json (some [1, 2]) = EmbedHTTP.json (some [1, 2]) :=
  ⟨by decide,
    get_embedding_failure_modes.2.2.2.2 (EmbedHTTP.json (some [1, 2])) [1, 2] (by decide)⟩

/-- C9: a backend reply that is valid JSON but lacks the response field
makes get_chat_response return the empty string (the stripped default), not
either fallback, so it is indistinguishable from a genuine empty
completion. -/
theorem get_chat_response_missing_field :
    get_chat_response (ChatHTTP.json none) = "" ∧
    get_chat_response (ChatHTTP.json none) ≠ transportFallback ∧
    get_chat_response (ChatHTTP.json none) ≠ malformedFallback ∧
    get_chat_response (ChatHTTP.json none) = get_chat_response (ChatHTTP.json (some "")) :=
  ⟨by decide, by decide, by decide, by decide⟩

/-- C10: with the history file absent, load_raw_history returns the empty
list, performs no open attempt and reports no error. -/
theorem load_raw_history_absent :
    load_raw_history HistFile.absent = ([], []) := rfl

theorem length_insertByDist (q : Embedding) (r : IndexRecord) (l : List IndexRecord) :
    (insertByDist q r l).length = l.length + 1 := by
  induction l with
  | nil => rfl
  | cons x xs ih =>
      simp only [insertByDist]
      split
      · simp
      · simp [ih]

theorem length_sortByDist (q : Embedding) (l : List IndexRecord) :
    (sortByDist q l).length = l.length := by
  induction l with
  | nil => rfl
  | cons r rs ih => simp [sortByDist, length_insertByDist, ih]

theorem mem_insertByDist (q : Embedding) (r x : IndexRecord) (l : List IndexRecord) :
    x ∈ insertByDist q r l → x = r ∨ x ∈ l := by
  induction l with
  | nil =>
      intro h
      simp only [insertByDist, List.mem_singleton] at h
      exact Or.inl h
  | cons y ys ih =>
      intro h
      simp only [insertByDist] at h
      split at h
      · exact (List.mem_cons.1 h).imp id id
      · rcases List.mem_cons.1 h with h1 | h2
        · exact Or.inr (List.mem_cons.2 (Or.inl h1))
        · rcases ih h2 with h3 | h4
          · exact Or.inl h3
          · exact Or.inr (List.mem_cons.2 (Or.inr h4))

theorem mem_sortByDist (q : Embedding) (x : IndexRecord) (l : List IndexRecord) :
    x ∈ sortByDist q l → x ∈ l := by
  induction l with
  | nil => intro h; simp [sortByDist] at h
  | cons r rs ih =>
      intro h
      rcases mem_insertByDist q r x (sortByDist q rs) h with h1 | h2
      · simp [h1]
      · exact List.mem_cons.2 (Or.inr (ih h2))

theorem parseWith_fst (rep : String → Event) (ls : List Line) :
    (parseWith rep ls).1 = ls.filterMap lineToTurn := by
  induction ls with
  | nil => rfl
  | cons l rest ih =>
      cases l with
      | wellFormed t => simp [parseWith, lineToTurn, ih]
      | malformed s => simp [parseWith, lineToTurn, ih]

theorem parseWith_length (rep : String → Event) (ls : List Line)
    (h : ∀ x ∈ ls, (lineToTurn x).isSome) :
    (parseWith rep ls).1.length = ls.length := by
  induction ls with
  | nil => rfl
  | cons l rest ih =>
      have hl := h l (List.mem_cons_self l rest)
      cases l with
      | wellFormed t =>
          simp only [parseWith, List.length_cons]
          rw [ih (fun x hx => h x (List.mem_cons.2 (Or.inr hx)))]
      | malformed s => simp [lineToTurn] at hl

theorem parseWith_reports (rep : String → Event) (s : String) (ls : List Line)
    (h : Line.malformed s ∈ ls) : rep s ∈ (parseWith rep ls).2 := by
  induction ls with
  | nil => simp at h
  | cons l rest ih =>
      cases l with
      | wellFormed t =>
          rcases List.mem_cons.1 h with h1 | h2
          · exact absurd h1 (by simp)
          · simpa only [parseWith] using ih h2
      | malformed s2 =>
          rcases List.mem_cons.1 h with h1 | h2
          · injection h1 with hs
            subst hs
            simp [parseWith]
          · simp only [parseWith]
            exact List.mem_cons.2 (Or.inr (ih h2))

theorem parseWith_keeps (rep : String → Event) (t : Turn) (ls : List Line)
    (h : Line.wellFormed t ∈ ls) : t ∈ (parseWith rep ls).1 := by
  induction ls with
  | nil => simp at h
  | cons l rest ih =>
      cases l with
      | wellFormed t2 =>
          rcases List.mem_cons.1 h with h1 | h2
          · injection h1 with ht
            subst ht
            simp [parseWith]
          · simp only [parseWith]
            exact List.mem_cons.2 (Or.inr (ih h2))
      | malformed s =>
          rcases List.mem_cons.1 h with h1 | h2
          · exact absurd h1 (by simp)
          · simpa only [parseWith] using ih h2

theorem save_eq_embedFail (recs : List IndexRecord) (hf : HistFile)
    (svc : String → EmbedHTTP) (u b i : String)
    (h : pyTruthy (get_embedding (svc (embedText u b))) = false) :
    save_conversation_turn ⟨some recs, hf⟩ svc u b i
      = (⟨some recs, (appendLine hf ⟨i, u, b⟩).1⟩,
         (appendLine hf ⟨i, u, b⟩).2
           ++ [Event.embedCall (embedText u b), Event.reportEmbedFailure i]) := by
  rcases hemb : get_embedding (svc (embedText u b)) with _ | e
  · simp only [save_conversation_turn, hemb]
  · rcases e with _ | ⟨x, xs⟩
    · simp only [save_conversation_turn, hemb]
    · rw [hemb] at h
      simp [pyTruthy] at h

theorem save_shape (recs : List IndexRecord) (hf : HistFile)
    (svc : String → EmbedHTTP) (u b i : String) :
    ∃ (recs2 : List IndexRecord) (tail : List Event),
      save_conversation_turn ⟨some recs, hf⟩ svc u b i
        = (⟨some recs2, (appendLine hf ⟨i, u, b⟩).1⟩,
           (appendLine hf ⟨i, u, b⟩).2 ++ (Event.embedCall (embedText u b) :: tail)) := by
  rcases hemb : get_embedding (svc (embedText u b)) with _ | e
  · exact ⟨recs, [Event.reportEmbedFailure i], by simp only [save_conversation_turn, hemb]⟩
  · rcases e with _ | ⟨x, xs⟩
    · exact ⟨recs, [Event.reportEmbedFailure i], by simp only [save_conversation_turn, hemb]⟩
    · by_cases hdup : recs.any (fun r => r.id == i) = true
      · exact ⟨recs, [Event.indexAdd i, Event.reportIndexAddError i],
          by simp only [save_conversation_turn, hemb, if_pos hdup]⟩
      · exact ⟨recs ++ [⟨i, x :: xs, Line.wellFormed ⟨i, u, b⟩, "conversation_history", i⟩],
          [Event.indexAdd i],
          by simp only [save_conversation_turn, hemb, if_neg hdup]⟩

theorem save_indexAdd_of_truthy (recs : List IndexRecord) (hf : HistFile)
    (svc : String → EmbedHTTP) (u b i : String)
    (h : pyTruthy (get_embedding (svc (embedText u b))) = true) :
    Event.indexAdd i ∈ (save_conversation_turn ⟨some recs, hf⟩ svc u b i).2 := by
  rcases hemb : get_embedding (svc (embedText u b)) with _ | e
  · rw [hemb] at h; simp [pyTruthy] at h
  · rcases e with _ | ⟨x, xs⟩
    · rw [hemb] at h; simp [pyTruthy] at h
    · by_cases hdup : recs.any (fun r => r.id == i) = true
      · simp only [save_conversation_turn, hemb, if_pos hdup]
        simp
      · simp only [save_conversation_turn, hemb, if_neg hdup]
        simp

theorem retrieve_eq_success (recs : List IndexRecord) (hf : HistFile)
    (svc : String → EmbedHTTP) (q : String) (n : Int) (x : Int) (xs : List Int)
    (hemb : get_embedding (svc q) = some (x :: xs))
    (hcnt : recs.length ≠ 0)
    (hpos : ¬ min n ((recs.length : Int)) ≤ 0) :
    retrieve_relevant_history ⟨some recs, hf⟩ svc q n
      = ((parseWith Event.reportSkippedDoc
            (collection_query recs (x :: xs) (min n ((recs.length : Int))).toNat)).1,
         [Event.embedCall q, Event.indexQuery (min n ((recs.length : Int))).toNat]
           ++ (parseWith Event.reportSkippedDoc
                (collection_query recs (x :: xs) (min n ((recs.length : Int))).toNat)).2) := by
  simp only [retrieve_relevant_history, hemb, if_neg hcnt, if_neg hpos]

theorem replay_historyFile (saves : List SaveReq) :
    ∀ (recs : List IndexRecord) (ls : List Line),
      ∃ recs2, replaySaves ⟨some recs, HistFile.present ls⟩ saves
        = ⟨some recs2, HistFile.present (ls ++ saves.map (fun s => Line.wellFormed s.turn))⟩ := by
  induction saves with
  | nil =>
      intro recs ls
      exact ⟨recs, by simp [replaySaves]⟩
  | cons s rest ih =>
      intro recs ls
      obtain ⟨recs2, tail, heq⟩ := save_shape recs (HistFile.present ls) s.svc s.user s.bot s.id
      obtain ⟨recs3, h3⟩ := ih recs2 (ls ++ [Line.wellFormed ⟨s.id, s.user, s.bot⟩])
      refine ⟨recs3, ?_⟩
      show replaySaves (save_conversation_turn ⟨some recs, HistFile.present ls⟩ s.svc s.user s.bot s.id).1 rest = _
      rw [heq]
      show replaySaves ⟨some recs2, HistFile.present (ls ++ [Line.wellFormed ⟨s.id, s.user, s.bot⟩])⟩ rest = _
      rw [h3]
      simp [SaveReq.turn, List.append_assoc]

theorem filterMap_lineToTurn_map_wellFormed (l : List SaveReq) :
    (l.map (fun s => Line.wellFormed s.turn)).filterMap lineToTurn = l.map SaveReq.turn := by
  induction l with
  | nil => rfl
  | cons s rest ih => simp [lineToTurn, ih]

/-- C1: in save_conversation_turn (with the collection available) the log
append is attempted first and any index add comes later in the trace; an
IOError on the history file is reported yet the embedding call and (for a
truthy embedding) the index add still happen; and when the embedding call
fails the index write is skipped (the collection is unchanged and no add is
attempted) with the failure reported, while the turn is still appended to
the log, hence recoverable through load_raw_history whenever the file
itself is writable. -/
theorem save_turn_log_first_best_effort (recs : List IndexRecord) (hf : HistFile)
    (svc : String → EmbedHTTP) (u b i : String) :
    (∃ rest : List Event,
        (save_conversation_turn ⟨some recs, hf⟩ svc u b i).2
          = Event.logAppend ⟨i, u, b⟩ :: rest) ∧
    Event.embedCall (embedText u b) ∈ (save_conversation_turn ⟨some recs, hf⟩ svc u b i).2 ∧
    (hf = HistFile.ioError →
        Event.reportLogError ∈ (save_conversation_turn ⟨some recs, hf⟩ svc u b i).2 ∧
        (pyTruthy (get_embedding (svc (embedText u b))) = true →
            Event.indexAdd i ∈ (save_conversation_turn ⟨some recs, hf⟩ svc u b i).2)) ∧
    (pyTruthy (get_embedding (svc (embedText u b))) = false →
        (save_conversation_turn ⟨some recs, hf⟩ svc u b i).1.collection = some recs ∧
        (∀ j : String, Event.indexAdd j ∉ (save_conversation_turn ⟨some recs, hf⟩ svc u b i).2) ∧
        Event.reportEmbedFailure i ∈ (save_conversation_turn ⟨some recs, hf⟩ svc u b i).2 ∧
        (hf ≠ HistFile.ioError →
            (⟨i, u, b⟩ : Turn) ∈
              (load_raw_history
                (save_conversation_turn ⟨some recs, hf⟩ svc u b i).1.historyFile).1)) := by
  obtain ⟨recs2, tail, heq⟩ := save_shape recs hf svc u b i
  refine ⟨?_, ?_, ?_, ?_⟩
  · rw [heq]
    cases hf with
    | ioError => exact ⟨[Event.reportLogError] ++ (Event.embedCall (embedText u b) :: tail), rfl⟩
    | absent => exact ⟨Event.embedCall (embedText u b) :: tail, rfl⟩
    | present ls => exact ⟨Event.embedCall (embedText u b) :: tail, rfl⟩
  · rw [heq]
    simp
  · intro hio
    subst hio
    constructor
    · rw [heq]
      simp [appendLine]
    · intro htr
      exact save_indexAdd_of_truthy recs HistFile.ioError svc u b i htr
  · intro hfail
    rw [save_eq_embedFail recs hf svc u b i hfail]
    refine ⟨rfl, ?_, ?_, ?_⟩
    · intro j
      cases hf <;> simp [appendLine]
    · simp
    · intro hio
      cases hf with
      | ioError => exact absurd rfl hio
      | absent => simp [appendLine, load_raw_history, parseWith]
      | present ls =>
          simp only [appendLine, load_raw_history]
          exact parseWith_keeps _ _ _ (List.mem_append.2 (Or.inr (by simp)))

theorem save_turn_log_first_best_effort_witness :
    pyTruthy (get_embedding ((fun _ : String => EmbedHTTP.transport) (embedText "hi" "yo"))) = false ∧
    (⟨"t1", "hi", "yo"⟩ : Turn) ∈
      (load_raw_history
        (save_conversation_turn ⟨some [], HistFile.present []⟩
          (fun _ => EmbedHTTP.transport) "hi" "yo" "t1").1.historyFile).1 :=
  ⟨by decide,
    ((save_turn_log_first_best_effort [] (HistFile.present [])
        (fun _ => EmbedHTTP.transport) "hi" "yo" "t1").2.2.2 (by decide)).2.2.2 (by decide)⟩

/-- C2: retrieve_relevant_history returns the empty list whenever the
collection is missing or holds zero records, and in the zero-count case the
trace contains no embedding call at all. -/
theorem retrieve_empty_shortcircuit (st : MMState) (svc : String → EmbedHTTP)
    (q : String) (n : Int)
    (h : st.collection = none ∨ st.collection = some []) :
    (retrieve_relevant_history st svc q n).1 = [] ∧
    (st.collection = some [] →
        ∀ s : String, Event.embedCall s ∉ (retrieve_relevant_history st svc q n).2) := by
  obtain ⟨c, hf⟩ := st
  rcases h with h | h
  · simp only at h
    subst h
    refine ⟨rfl, ?_⟩
    intro hc
    simp at hc
  · simp only at h
    subst h
    exact ⟨rfl, fun _ s => by simp [retrieve_relevant_history]⟩

theorem retrieve_empty_shortcircuit_witness :
    ((⟨some [], HistFile.absent⟩ : MMState).collection = none ∨
      (⟨some [], HistFile.absent⟩ : MMState).collection = some []) ∧
    (retrieve_relevant_history ⟨some [], HistFile.absent⟩
        (fun _ => EmbedHTTP.json (some [1])) "q" 3).1 = [] ∧
    Event.embedCall "q" ∉
      (retrieve_relevant_history ⟨some [], HistFile.absent⟩
        (fun _ => EmbedHTTP.json (some [1])) "q" 3).2 :=
  ⟨Or.inr rfl,
    (retrieve_empty_shortcircuit ⟨some [], HistFile.absent⟩
      (fun _ => EmbedHTTP.json (some [1])) "q" 3 (Or.inr rfl)).1,
    (retrieve_empty_shortcircuit ⟨some [], HistFile.absent⟩
      (fun _ => EmbedHTTP.json (some [1])) "q" 3 (Or.inr rfl)).2 rfl "q"⟩

/-- C3: with m records where 0 < m < n, retrieve_relevant_history clamps
the request to m (the index query is issued for m results) and returns
exactly m turns, given the normal-operation setting of the claim: the query
embedding succeeds and every stored document is a serialized turn. -/
theorem retrieve_clamps_to_count (recs : List IndexRecord) (hf : HistFile)
    (svc : String → EmbedHTTP) (q : String) (n : Int) (x : Int) (xs : List Int)
    (hm : 0 < recs.length) (hlt : (recs.length : Int) < n)
    (hemb : get_embedding (svc q) = some (x :: xs))
    (hdocs : ∀ r ∈ recs, (lineToTurn r.document).isSome) :
    (retrieve_relevant_history ⟨some recs, hf⟩ svc q n).1.length = recs.length ∧
    Event.indexQuery recs.length ∈ (retrieve_relevant_history ⟨some recs, hf⟩ svc q n).2 := by
  have hcnt : recs.length ≠ 0 := Nat.pos_iff_ne_zero.mp hm
  have hminr : min n ((recs.length : Int)) = (recs.length : Int) :=
    min_eq_right (le_of_lt hlt)
  have hpos : ¬ min n ((recs.length : Int)) ≤ 0 := by
    rw [hminr]
    omega
  have hk : (min n ((recs.length : Int))).toNat = recs.length := by
    rw [hminr]
    omega
  rw [retrieve_eq_success recs hf svc q n x xs hemb hcnt hpos]
  have hq : collection_query recs (x :: xs) (min n ((recs.length : Int))).toNat
      = (sortByDist (x :: xs) recs).map (fun r => r.document) := by
    rw [hk, collection_query, ← length_sortByDist (x :: xs) recs, List.take_length]
  constructor
  · rw [hq]
    have hall : ∀ y ∈ (sortByDist (x :: xs) recs).map (fun r => r.document),
        (lineToTurn y).isSome := by
      intro y hy
      rcases List.mem_map.1 hy with ⟨r, hr, rfl⟩
      exact hdocs r (mem_sortByDist _ r recs hr)
    rw [parseWith_length _ _ hall, List.length_map, length_sortByDist]
  · rw [hk]
    simp

theorem retrieve_clamps_to_count_witness :
    (0 < ([⟨"a", [0], Line.wellFormed ⟨"a", "u", "b"⟩, "conversation_history", "a"⟩]
        : List IndexRecord).length) ∧
    (retrieve_relevant_history
        ⟨some [⟨"a", [0], Line.wellFormed ⟨"a", "u", "b"⟩, "conversation_history", "a"⟩],
          HistFile.absent⟩
        (fun _ => EmbedHTTP.json (some [1])) "q" 2).1.length = 1 :=
  ⟨by decide,
    (retrieve_clamps_to_count
      [⟨"a", [0], Line.wellFormed ⟨"a", "u", "b"⟩, "conversation_history", "a"⟩]
      HistFile.absent (fun _ => EmbedHTTP.json (some [1])) "q" 2 1 []
      (by decide) (by decide) rfl (by decide)).1⟩

/-- C7: load_raw_history returns the parsed turns of exactly the lines that
parse, in file order, reporting and skipping each malformed line without
aborting the load; and after replaying any sequence of saves from an absent
history file the loaded turns are the saved turns in save order, whatever
the embedding or index outcome of each individual save was. -/
theorem load_raw_history_spec :
    (∀ ls : List Line,
        (load_raw_history (HistFile.present ls)).1 = ls.filterMap lineToTurn) ∧
    (∀ (s : String) (ls : List Line), Line.malformed s ∈ ls →
        Event.reportSkippedLine s ∈ (load_raw_history (HistFile.present ls)).2) ∧
    (∀ (t : Turn) (ls : List Line), Line.wellFormed t ∈ ls →
        t ∈ (load_raw_history (HistFile.present ls)).1) ∧
    (∀ (saves : List SaveReq) (recs : List IndexRecord),
        (load_raw_history
            (replaySaves ⟨some recs, HistFile.absent⟩ saves).historyFile).1
          = saves.map SaveReq.turn) := by
  refine ⟨fun ls => parseWith_fst _ ls, ?_, ?_, ?_⟩
  · intro s ls h
    simp only [load_raw_history]
    exact List.mem_cons.2 (Or.inr (parseWith_reports _ s ls h))
  · intro t ls h
    simpa only [load_raw_history] using parseWith_keeps _ t ls h
  · intro saves recs
    cases saves with
    | nil => rfl
    | cons s rest =>
        obtain ⟨recs2, tail, heq⟩ := save_shape recs HistFile.absent s.svc s.user s.bot s.id
        show (load_raw_history
            (replaySaves (save_conversation_turn ⟨some recs, HistFile.absent⟩
              s.svc s.user s.bot s.id).1 rest).historyFile).1 = _
        rw [heq]
        show (load_raw_history
            (replaySaves ⟨some recs2,
              HistFile.present [Line.wellFormed ⟨s.id, s.user, s.bot⟩]⟩ rest).historyFile).1 = _
        obtain ⟨recs3, h3⟩ :=
          replay_historyFile rest recs2 [Line.wellFormed ⟨s.id, s.user, s.bot⟩]
        rw [h3]
        simp only [load_raw_history]
        rw [parseWith_fst]
        show (([Line.wellFormed ⟨s.id, s.user, s.bot⟩]
            ++ rest.map fun s => Line.wellFormed s.turn).filterMap lineToTurn) = _
        rw [List.filterMap_append, filterMap_lineToTurn_map_wellFormed]
        simp [lineToTurn, SaveReq.turn]

theorem load_raw_history_spec_witness :
    Line.malformed "oops" ∈ [Line.malformed "oops", Line.wellFormed ⟨"t1", "u", "b"⟩] ∧
    Event.reportSkippedLine "oops" ∈
      (load_raw_history
        (HistFile.present [Line.malformed "oops", Line.wellFormed ⟨"t1", "u", "b"⟩])).2 :=
  ⟨by decide,
    load_raw_history_spec.2.1 "oops"
      [Line.malformed "oops", Line.wellFormed ⟨"t1", "u", "b"⟩] (by decide)⟩

/-- C8: on the query path of retrieve_relevant_history, the returned turns
are exactly the deserializations of the documents the index query returned:
every document that is a serialized turn contributes that turn to the
result, and every document that fails to deserialize is skipped with a
report while the rest are still returned. -/
theorem retrieve_skips_corrupt_docs (recs : List IndexRecord) (hf : HistFile)
    (svc : String → EmbedHTTP) (q : String) (n : Int) (x : Int) (xs : List Int)
    (hemb : get_embedding (svc q) = some (x :: xs))
    (hcnt : recs.length ≠ 0)
    (hpos : ¬ min n ((recs.length : Int)) ≤ 0) :
    ((retrieve_relevant_history ⟨some recs, hf⟩ svc q n).1
        = (collection_query recs (x :: xs)
            (min n ((recs.length : Int))).toNat).filterMap lineToTurn) ∧
    (∀ t : Turn,
        Line.wellFormed t ∈ collection_query recs (x :: xs)
            (min n ((recs.length : Int))).toNat →
        t ∈ (retrieve_relevant_history ⟨some recs, hf⟩ svc q n).1) ∧
    (∀ s : String,
        Line.malformed s ∈ collection_query recs (x :: xs)
            (min n ((recs.length : Int))).toNat →
        Event.reportSkippedDoc s ∈ (retrieve_relevant_history ⟨some recs, hf⟩ svc q n).2) := by
  rw [retrieve_eq_success recs hf svc q n x xs hemb hcnt hpos]
  refine ⟨parseWith_fst _ _, ?_, ?_⟩
  · intro t ht
    exact parseWith_keeps _ t _ ht
  · intro s hs
    exact List.mem_append.2 (Or.inr (parseWith_reports _ s _ hs))

theorem retrieve_skips_corrupt_docs_witness :
    Line.malformed "junk" ∈ collection_query
      [⟨"a", [0], Line.wellFormed ⟨"a", "u", "b"⟩, "conversation_history", "a"⟩,
       ⟨"c", [5], Line.malformed "junk", "conversation_history", "c"⟩]
      [1] (min 5 ((2 : Nat) : Int)).toNat ∧
    (⟨"a", "u", "b"⟩ : Turn) ∈
      (retrieve_relevant_history
        ⟨some [⟨"a", [0], Line.wellFormed ⟨"a", "u", "b"⟩, "conversation_history", "a"⟩,
               ⟨"c", [5], Line.malformed "junk", "conversation_history", "c"⟩],
          HistFile.absent⟩
        (fun _ => EmbedHTTP.json (some [1])) "q" 5).1 ∧
    Event.reportSkippedDoc "junk" ∈
      (retrieve_relevant_history
        ⟨some [⟨"a", [0], Line.wellFormed ⟨"a", "u", "b"⟩, "conversation_history", "a"⟩,
               ⟨"c", [5], Line.malformed "junk", "conversation_history", "c"⟩],
          HistFile.absent⟩
        (fun _ => EmbedHTTP.json (some [1])) "q" 5).2 :=
  ⟨by decide,
    (retrieve_skips_corrupt_docs
      [⟨"a", [0], Line.wellFormed ⟨"a", "u", "b"⟩, "conversation_history", "a"⟩,
       ⟨"c", [5], Line.malformed "junk", "conversation_history", "c"⟩]
      HistFile.absent (fun _ => EmbedHTTP.json (some [1])) "q" 5 1 []
      rfl (by decide) (by decide)).2.1 ⟨"a", "u", "b"⟩ (by decide),
    (retrieve_skips_corrupt_docs
      [⟨"a", [0], Line.wellFormed ⟨"a", "u", "b"⟩, "conversation_history", "a"⟩,
       ⟨"c", [5], Line.malformed "junk", "conversation_history", "c"⟩]
      HistFile.absent (fun _ => EmbedHTTP.json (some [1])) "q" 5 1 []
      rfl (by decide) (by decide)).2.2 "junk" (by decide)⟩
